import Mathlib

set_option maxHeartbeats 1000000

/-!
Shallow embedding of `src/contracts/staking_contract/src/contract.rs`
(a CosmWasm contract holding a global counter plus a per-account stake map)
and `src/contracts/staking_contract/src/msg.rs`.

Modelling conventions:
* `Uint128` amounts are modelled as `Nat`: cosmwasm `Uint128` arithmetic is
  checked (an overflow panics and aborts the whole call without committing
  state, it never wraps), so on every execution that commits state the two
  models agree.
* `count` is an `i32`; increments wrap (release-mode two's complement),
  modelled by `wrap32`.
* The storage consists of the singleton `STATE` item (`Option GlobalState`,
  `none` before instantiation) and the `STAKES` map, modelled as an
  association list with first-occurrence lookup/save/remove, which matches
  the unique-key map of `cw_storage_plus` on every reachable state.
* `ContractError` keeps the two shapes the contract produces:
  `Unauthorized {}` and `Std(StdError::generic_err(msg))`, the latter carried
  as the message string.  `StdError::NotFound` raised by `STATE.update` on an
  uninstantiated store is carried as the string "State not found".
* Handlers return the result together with the storage as mutated so far
  (mirroring `DepsMut`): an error result does not by construction revert
  anything, so "errors leave the state unchanged" is a real property of the
  handler code, not of the model.
-/

/-- A `cosmwasm_std::Coin`: denomination and (checked 128-bit) amount. -/
structure Coin where
  denom : String
  amount : Nat
deriving Repr, DecidableEq

/-- `cosmwasm_std::MessageInfo`: authenticated sender and attached funds. -/
structure MessageInfo where
  sender : String
  funds : List Coin
deriving Repr, DecidableEq

/-- The `State` struct stored under `STATE` (`count: i32`, `owner: Addr`). -/
structure GlobalState where
  count : Int
  owner : String
deriving Repr, DecidableEq

/-- The contract storage: the `STATE` item (absent before `instantiate`)
and the `STAKES` map from address to `Uint128` balance. -/
structure Storage where
  state : Option GlobalState
  stakes : List (String × Nat)
deriving Repr, DecidableEq

/-- `crate::error::ContractError`: the contract only ever produces
`Unauthorized {}` and `Std(StdError::generic_err _)` (plus the storage
`NotFound` passthrough, also a `Std` variant). -/
inductive ContractError where
  | Unauthorized : ContractError
  | Std : String → ContractError
deriving Repr, DecidableEq

/-- `cosmwasm_std::BankMsg::Send`. -/
structure BankMsgSend where
  to_address : String
  amount : List Coin
deriving Repr, DecidableEq

/-- `cosmwasm_std::Response`: logged attributes and outbound messages. -/
structure Response where
  attributes : List (String × String)
  messages : List BankMsgSend
deriving Repr, DecidableEq

def Response.new : Response := ⟨[], []⟩

def Response.addAttribute (r : Response) (k v : String) : Response :=
  { r with attributes := r.attributes ++ [(k, v)] }

def Response.addMessage (r : Response) (m : BankMsgSend) : Response :=
  { r with messages := r.messages ++ [m] }

/-- `crate::msg::ExecuteMsg`. -/
inductive ExecuteMsg where
  | Increment : ExecuteMsg
  | Reset : Int → ExecuteMsg
  | Stake : Nat → ExecuteMsg
  | Unstake : Nat → ExecuteMsg
deriving Repr, DecidableEq

/-- `STAKES.may_load`: value of the first entry with the given key. -/
def lookupStake : List (String × Nat) → String → Option Nat
  | [], _ => none
  | (k, w) :: rest, a => if k = a then some w else lookupStake rest a

/-- `STAKES.save`: replace the first entry with the given key, or append. -/
def saveStake : List (String × Nat) → String → Nat → List (String × Nat)
  | [], a, v => [(a, v)]
  | (k, w) :: rest, a, v =>
    if k = a then (a, v) :: rest else (k, w) :: saveStake rest a v

/-- `STAKES.remove`: drop the first entry with the given key. -/
def removeStake : List (String × Nat) → String → List (String × Nat)
  | [], _ => []
  | (k, w) :: rest, a =>
    if k = a then rest else (k, w) :: removeStake rest a

/-- Two's-complement wrap to `i32`. -/
def wrap32 (n : Int) : Int := (n + 2 ^ 31) % 2 ^ 32 - 2 ^ 31

/-- `instantiate`: unconditionally builds `State { count, owner: sender }`
and saves it; there is no already-initialized check, so any prior
`GlobalState` is overwritten and the `STAKES` map is left untouched.
(`set_contract_version` only writes cw2 metadata outside the modelled
storage.) -/
def instantiate (storage : Storage) (info : MessageInfo) (count : Int) :
    Except ContractError (Storage × Response) :=
  let state : GlobalState := { count := count, owner := info.sender }
  .ok ({ storage with state := some state },
    ((Response.new.addAttribute "method" "instantiate").addAttribute
        "owner" info.sender).addAttribute "count" (toString count))

namespace execute

/-- `execute::increment`: `STATE.update` bumps `count` by 1; fails with the
storage `NotFound` error if the state item is absent. -/
def increment (storage : Storage) : Except ContractError Response × Storage :=
  match storage.state with
  | none => (.error (.Std "State not found"), storage)
  | some st =>
    (.ok (Response.new.addAttribute "action" "increment"),
     { storage with state := some { st with count := wrap32 (st.count + 1) } })

/-- `execute::reset`: inside `STATE.update`, rejects a sender different from
the stored owner with `Unauthorized` (the closure errors, so nothing is
saved), otherwise stores the requested count. -/
def reset (storage : Storage) (info : MessageInfo) (count : Int) :
    Except ContractError Response × Storage :=
  match storage.state with
  | none => (.error (.Std "State not found"), storage)
  | some st =>
    if info.sender ≠ st.owner then
      (.error .Unauthorized, storage)
    else
      (.ok (Response.new.addAttribute "action" "reset"),
       { storage with state := some { st with count := count } })

/-- `execute::stake`: requires non-empty funds whose first coin covers
`amount` (checked first), then a non-zero `amount`; on success adds `amount`
to the sender's balance (creating the entry). -/
def stake (storage : Storage) (info : MessageInfo) (amount : Nat) :
    Except ContractError Response × Storage :=
  match info.funds with
  | [] => (.error (.Std "Insufficient funds sent for staking"), storage)
  | c :: _ =>
    if c.amount < amount then
      (.error (.Std "Insufficient funds sent for staking"), storage)
    else if amount = 0 then
      (.error (.Std "Stake amount must be greater than zero"), storage)
    else
      let balance := (lookupStake storage.stakes info.sender).getD 0
      (.ok (((Response.new.addAttribute "action" "stake").addAttribute
          "staker" info.sender).addAttribute "amount" (toString amount)),
       { storage with
           stakes := saveStake storage.stakes info.sender (balance + amount) })

/-- `execute::unstake`: rejects `amount > current_stake` (default 0); on
success removes the entry when the new balance is zero, else saves it, and
emits a `BankMsg::Send` of `amount` of denom "token" back to the sender. -/
def unstake (storage : Storage) (info : MessageInfo) (amount : Nat) :
    Except ContractError Response × Storage :=
  let current := (lookupStake storage.stakes info.sender).getD 0
  if current < amount then
    (.error (.Std "Cannot unstake more than your current balance"), storage)
  else
    let newStake := current - amount
    let stakes1 :=
      if newStake = 0 then removeStake storage.stakes info.sender
      else saveStake storage.stakes info.sender newStake
    let bankMsg : BankMsgSend :=
      { to_address := info.sender,
        amount := [{ denom := "token", amount := amount }] }
    (.ok ((((Response.new.addAttribute "action" "unstake").addAttribute
        "staker" info.sender).addAttribute
        "amount" (toString amount)).addMessage bankMsg),
     { storage with stakes := stakes1 })

end execute

/-- The `execute` entry point dispatch. -/
def executeMsg (storage : Storage) (info : MessageInfo) (msg : ExecuteMsg) :
    Except ContractError Response × Storage :=
  match msg with
  | .Increment => execute.increment storage
  | .Reset count => execute.reset storage info count
  | .Stake amount => execute.stake storage info amount
  | .Unstake amount => execute.unstake storage info amount

/-- `query::stake` after address validation: stored balance, default 0. -/
def getStake (storage : Storage) (address : String) : Nat :=
  (lookupStake storage.stakes address).getD 0

/-- Sum of all balances in the stake map. -/
def sumStakes (s : List (String × Nat)) : Nat := (s.map Prod.snd).sum

/-- Amount accepted by a successful `Stake`, 0 otherwise. -/
def stakeDelta (res : Except ContractError Response) (msg : ExecuteMsg) : Nat :=
  match msg with
  | .Stake a => match res with | .ok _ => a | .error _ => 0
  | _ => 0

/-- Amount released by a successful `Unstake`, 0 otherwise. -/
def unstakeDelta (res : Except ContractError Response) (msg : ExecuteMsg) : Nat :=
  match msg with
  | .Unstake a => match res with | .ok _ => a | .error _ => 0
  | _ => 0

/-- Run a sequence of execute calls, tallying the total amount accepted by
successful stakes and the total amount released by successful unstakes. -/
def runTrace : Storage → List (MessageInfo × ExecuteMsg) → Storage × Nat × Nat
  | storage, [] => (storage, 0, 0)
  | storage, (info, msg) :: rest =>
    ((runTrace (executeMsg storage info msg).2 rest).1,
     (runTrace (executeMsg storage info msg).2 rest).2.1
       + stakeDelta (executeMsg storage info msg).1 msg,
     (runTrace (executeMsg storage info msg).2 rest).2.2
       + unstakeDelta (executeMsg storage info msg).1 msg)

/-- Every entry of the stake map has a distinct key. -/
def NodupKeys (s : List (String × Nat)) : Prop := (s.map Prod.fst).Nodup

/-- The first rejection test of `execute::stake`: attached funds empty, or
first coin short of the declared amount. -/
def fundsInsufficient (info : MessageInfo) (amount : Nat) : Bool :=
  match info.funds with
  | [] => true
  | c :: _ => decide (c.amount < amount)

/-! ### Association-list lemmas for the `STAKES` map -/

theorem lookupStake_le_sum (s : List (String × Nat)) (a : String) :
    (lookupStake s a).getD 0 ≤ sumStakes s := by
  induction s with
  | nil => simp [lookupStake, sumStakes]
  | cons p rest ih =>
    obtain ⟨k, w⟩ := p
    simp only [lookupStake, sumStakes, List.map_cons, List.sum_cons]
    simp only [sumStakes] at ih
    split
    · simp
    · omega

theorem sumStakes_save (s : List (String × Nat)) (a : String) (v : Nat) :
    sumStakes (saveStake s a v) + (lookupStake s a).getD 0
      = sumStakes s + v := by
  induction s with
  | nil => simp [saveStake, lookupStake, sumStakes]
  | cons p rest ih =>
    obtain ⟨k, w⟩ := p
    simp only [saveStake, lookupStake]
    simp only [sumStakes, List.map_cons, List.sum_cons] at ih ⊢
    split
    · simp only [List.map_cons, List.sum_cons, Option.getD_some]
      omega
    · simp only [List.map_cons, List.sum_cons]
      omega

theorem sumStakes_remove (s : List (String × Nat)) (a : String) :
    sumStakes (removeStake s a) + (lookupStake s a).getD 0 = sumStakes s := by
  induction s with
  | nil => simp [removeStake, lookupStake, sumStakes]
  | cons p rest ih =>
    obtain ⟨k, w⟩ := p
    simp only [removeStake, lookupStake]
    simp only [sumStakes, List.map_cons, List.sum_cons] at ih ⊢
    split
    · simp only [Option.getD_some]
      omega
    · simp only [List.map_cons, List.sum_cons]
      omega

theorem lookupStake_save_self (s : List (String × Nat)) (a : String) (v : Nat) :
    lookupStake (saveStake s a v) a = some v := by
  induction s with
  | nil => simp [saveStake, lookupStake]
  | cons p rest ih =>
    obtain ⟨k, w⟩ := p
    simp only [saveStake]
    split
    · simp [lookupStake]
    · simp only [lookupStake]
      rw [if_neg (by assumption)]
      exact ih

theorem lookupStake_eq_none_of_not_mem (s : List (String × Nat)) (a : String)
    (h : a ∉ s.map Prod.fst) : lookupStake s a = none := by
  induction s with
  | nil => simp [lookupStake]
  | cons p rest ih =>
    obtain ⟨k, w⟩ := p
    simp only [List.map_cons, List.mem_cons, not_or] at h
    simp only [lookupStake]
    rw [if_neg (fun hk => h.1 hk.symm)]
    exact ih h.2

theorem removeStake_of_lookup_none (s : List (String × Nat)) (a : String)
    (h : lookupStake s a = none) : removeStake s a = s := by
  induction s with
  | nil => simp [removeStake]
  | cons p rest ih =>
    obtain ⟨k, w⟩ := p
    simp only [lookupStake] at h
    simp only [removeStake]
    by_cases hk : k = a
    · rw [if_pos hk] at h
      exact absurd h (by simp)
    · rw [if_neg hk] at h
      rw [if_neg hk, ih h]

theorem saveStake_self (s : List (String × Nat)) (a : String) (v : Nat)
    (h : lookupStake s a = some v) : saveStake s a v = s := by
  induction s with
  | nil => simp [lookupStake] at h
  | cons p rest ih =>
    obtain ⟨k, w⟩ := p
    simp only [lookupStake] at h
    simp only [saveStake]
    by_cases hk : k = a
    · rw [if_pos hk] at h
      rw [if_pos hk]
      simp only [Option.some.injEq] at h
      rw [hk, h]
    · rw [if_neg hk] at h
      rw [if_neg hk, ih h]

theorem lookupStake_mem (s : List (String × Nat)) (a : String) (v : Nat)
    (h : lookupStake s a = some v) : (a, v) ∈ s := by
  induction s with
  | nil => simp [lookupStake] at h
  | cons p rest ih =>
    obtain ⟨k, w⟩ := p
    simp only [lookupStake] at h
    by_cases hk : k = a
    · rw [if_pos hk] at h
      simp only [Option.some.injEq] at h
      simp [← hk, ← h]
    · rw [if_neg hk] at h
      exact List.mem_cons_of_mem _ (ih h)

theorem mem_saveStake (s : List (String × Nat)) (a : String) (v : Nat)
    (p : String × Nat) (h : p ∈ saveStake s a v) : p = (a, v) ∨ p ∈ s := by
  induction s with
  | nil => simp [saveStake] at h; exact Or.inl h
  | cons q rest ih =>
    obtain ⟨k, w⟩ := q
    simp only [saveStake] at h
    by_cases hk : k = a
    · rw [if_pos hk] at h
      rcases List.mem_cons.mp h with h1 | h1
      · exact Or.inl h1
      · exact Or.inr (List.mem_cons_of_mem _ h1)
    · rw [if_neg hk] at h
      rcases List.mem_cons.mp h with h1 | h1
      · exact Or.inr (List.mem_cons.mpr (Or.inl h1))
      · rcases ih h1 with h2 | h2
        · exact Or.inl h2
        · exact Or.inr (List.mem_cons_of_mem _ h2)

theorem mem_removeStake (s : List (String × Nat)) (a : String)
    (p : String × Nat) (h : p ∈ removeStake s a) : p ∈ s := by
  induction s with
  | nil => simp [removeStake] at h
  | cons q rest ih =>
    obtain ⟨k, w⟩ := q
    simp only [removeStake] at h
    by_cases hk : k = a
    · rw [if_pos hk] at h
      exact List.mem_cons_of_mem _ h
    · rw [if_neg hk] at h
      rcases List.mem_cons.mp h with h1 | h1
      · exact List.mem_cons.mpr (Or.inl h1)
      · exact List.mem_cons_of_mem _ (ih h1)

theorem not_mem_removeStake (s : List (String × Nat)) (a : String)
    (h : NodupKeys s) : a ∉ (removeStake s a).map Prod.fst := by
  induction s with
  | nil => simp [removeStake]
  | cons q rest ih =>
    obtain ⟨k, w⟩ := q
    simp only [NodupKeys, List.map_cons, List.nodup_cons] at h
    simp only [removeStake]
    by_cases hk : k = a
    · rw [if_pos hk]
      rw [hk] at h
      exact h.1
    · rw [if_neg hk]
      simp only [List.map_cons, List.mem_cons, not_or]
      exact ⟨fun ha => hk ha.symm, ih h.2⟩

/-! ### Per-call and per-trace conservation -/

theorem executeMsg_sum (σ : Storage) (info : MessageInfo) (msg : ExecuteMsg) :
    sumStakes (executeMsg σ info msg).2.stakes
        + unstakeDelta (executeMsg σ info msg).1 msg
      = sumStakes σ.stakes + stakeDelta (executeMsg σ info msg).1 msg := by
  cases msg with
  | Increment =>
    cases hs : σ.state <;>
      simp [executeMsg, execute.increment, hs, stakeDelta, unstakeDelta]
  | Reset c =>
    cases hs : σ.state with
    | none => simp [executeMsg, execute.reset, hs, stakeDelta, unstakeDelta]
    | some st =>
      by_cases h : info.sender = st.owner <;>
        simp [executeMsg, execute.reset, hs, h, stakeDelta, unstakeDelta]
  | Stake a =>
    cases hf : info.funds with
    | nil => simp [executeMsg, execute.stake, hf, stakeDelta, unstakeDelta]
    | cons c rest =>
      by_cases h1 : c.amount < a
      · simp [executeMsg, execute.stake, hf, h1, stakeDelta, unstakeDelta]
      · by_cases h2 : a = 0
        · simp [executeMsg, execute.stake, hf, h1, h2, stakeDelta,
            unstakeDelta]
        · simp only [executeMsg, execute.stake, hf, if_neg h1, if_neg h2,
            stakeDelta, unstakeDelta]
          have := sumStakes_save σ.stakes info.sender
            ((lookupStake σ.stakes info.sender).getD 0 + a)
          omega
  | Unstake a =>
    by_cases h1 : (lookupStake σ.stakes info.sender).getD 0 < a
    · simp [executeMsg, execute.unstake, h1, stakeDelta, unstakeDelta]
    · by_cases h2 : (lookupStake σ.stakes info.sender).getD 0 - a = 0
      · simp only [executeMsg, execute.unstake, if_neg h1, if_pos h2,
          stakeDelta, unstakeDelta]
        have := sumStakes_remove σ.stakes info.sender
        omega
      · simp only [executeMsg, execute.unstake, if_neg h1, if_neg h2,
          stakeDelta, unstakeDelta]
        have := sumStakes_save σ.stakes info.sender
          ((lookupStake σ.stakes info.sender).getD 0 - a)
        omega

theorem runTrace_sum (tr : List (MessageInfo × ExecuteMsg)) (σ : Storage) :
    sumStakes (runTrace σ tr).1.stakes + (runTrace σ tr).2.2
      = sumStakes σ.stakes + (runTrace σ tr).2.1 := by
  induction tr generalizing σ with
  | nil => simp [runTrace]
  | cons p rest ih =>
    obtain ⟨info, msg⟩ := p
    simp only [runTrace]
    have h1 := executeMsg_sum σ info msg
    have h2 := ih (executeMsg σ info msg).2
    omega

/-! ### Claim theorems -/

/-- C1: for every sequence of execute calls starting from an initialized
ledger with an empty stake mapping, the sum of all stake balances equals the
total amount accepted by successful stakes minus the total amount released by
successful unstakes, and this sum is never negative. -/
theorem stake_sum_conservation (g : Option GlobalState)
    (tr : List (MessageInfo × ExecuteMsg)) :
    ((sumStakes (runTrace ⟨g, []⟩ tr).1.stakes : Int)
        = ((runTrace ⟨g, []⟩ tr).2.1 : Int)
            - ((runTrace ⟨g, []⟩ tr).2.2 : Int))
      ∧ (0 : Int) ≤ (sumStakes (runTrace ⟨g, []⟩ tr).1.stakes : Int) := by
  have h := runTrace_sum tr ⟨g, []⟩
  have h0 : sumStakes (Storage.mk g []).stakes = 0 := rfl
  rw [h0] at h
  exact ⟨by omega, by omega⟩

/-- C2 counterexample: calling `instantiate` on an already-initialized store
does not fail with any error; it succeeds and overwrites the stored owner and
count with the new caller's values. -/
theorem instantiate_no_reinit_guard :
    ∃ p, instantiate ⟨some ⟨17, "creator"⟩, []⟩ ⟨"intruder", []⟩ 5 = .ok p
      ∧ p.1.state = some ⟨5, "intruder"⟩ :=
  ⟨_, rfl, rfl⟩

/-- C2 (amended): `instantiate` never fails; whether or not a `GlobalState`
is already stored, it succeeds and stores `owner = caller`,
`count = initial count`, leaving the stake mapping untouched. -/
theorem instantiate_always_overwrites (σ : Storage) (info : MessageInfo)
    (c : Int) :
    ∃ r, instantiate σ info c
      = .ok ({ state := some { count := c, owner := info.sender },
               stakes := σ.stakes }, r) :=
  ⟨_, rfl⟩

/-- C4: unstaking strictly more than the caller's current balance (0 when the
entry is absent) fails with the insufficient-balance error and returns the
storage unchanged. -/
theorem unstake_insufficient_balance (σ : Storage) (info : MessageInfo)
    (a : Nat) (h : getStake σ info.sender < a) :
    executeMsg σ info (.Unstake a)
      = (.error (.Std "Cannot unstake more than your current balance"), σ) := by
  simp only [executeMsg, execute.unstake]
  rw [if_pos (by simpa [getStake] using h)]

/-- C4 witness: an account with no stake entry cannot unstake 1. -/
theorem unstake_insufficient_balance_witness :
    getStake ⟨some ⟨0, "o"⟩, []⟩ "alice" < 1
      ∧ executeMsg ⟨some ⟨0, "o"⟩, []⟩ ⟨"alice", []⟩ (.Unstake 1)
        = (.error (.Std "Cannot unstake more than your current balance"),
           ⟨some ⟨0, "o"⟩, []⟩) :=
  ⟨by decide, unstake_insufficient_balance _ _ _ (by decide)⟩

/-- C7: a reset by any caller other than the stored owner fails with
`Unauthorized` and returns the storage (hence the count) unchanged; a reset
by the owner succeeds and stores the requested count. -/
theorem reset_owner_only (σ : Storage) (g : GlobalState) (info : MessageInfo)
    (c : Int) (hs : σ.state = some g) :
    (info.sender ≠ g.owner →
        executeMsg σ info (.Reset c) = (.error .Unauthorized, σ))
      ∧ (info.sender = g.owner →
        executeMsg σ info (.Reset c)
          = (.ok (Response.new.addAttribute "action" "reset"),
             { σ with state := some { g with count := c } })) := by
  constructor <;> intro h <;> simp [executeMsg, execute.reset, hs, h]

/-- C7 witness: a non-owner reset is rejected with the count left at 7; an
owner reset stores 5. -/
theorem reset_owner_only_witness :
    (executeMsg ⟨some ⟨7, "owner"⟩, []⟩ ⟨"mallory", []⟩ (.Reset 5)
        = (.error .Unauthorized, ⟨some ⟨7, "owner"⟩, []⟩))
      ∧ (executeMsg ⟨some ⟨7, "owner"⟩, []⟩ ⟨"owner", []⟩ (.Reset 5)
        = (.ok (Response.new.addAttribute "action" "reset"),
           ⟨some ⟨5, "owner"⟩, []⟩)) :=
  ⟨(reset_owner_only ⟨some ⟨7, "owner"⟩, []⟩ ⟨7, "owner"⟩ ⟨"mallory", []⟩ 5
      rfl).1 (by decide),
   (reset_owner_only ⟨some ⟨7, "owner"⟩, []⟩ ⟨7, "owner"⟩ ⟨"owner", []⟩ 5
      rfl).2 rfl⟩

/-- C8: whenever any execute operation returns an error, the storage it
hands back (global state and stake mapping) is exactly the input storage:
no handler writes anything before failing. -/
theorem error_leaves_storage (σ σ1 : Storage) (info : MessageInfo)
    (msg : ExecuteMsg) (e : ContractError)
    (h : executeMsg σ info msg = (.error e, σ1)) : σ1 = σ := by
  cases msg with
  | Increment =>
    cases hs : σ.state <;> simp_all [executeMsg, execute.increment]
  | Reset c =>
    cases hs : σ.state with
    | none => simp_all [executeMsg, execute.reset]
    | some st =>
      by_cases hw : info.sender = st.owner <;>
        simp_all [executeMsg, execute.reset]
  | Stake a =>
    cases hf : info.funds with
    | nil => simp_all [executeMsg, execute.stake]
    | cons c rest =>
      by_cases h1 : c.amount < a
      · simp_all [executeMsg, execute.stake]
      · by_cases h2 : a = 0 <;> simp_all [executeMsg, execute.stake]
  | Unstake a =>
    by_cases h1 : (lookupStake σ.stakes info.sender).getD 0 < a
    · simp_all [executeMsg, execute.unstake]
    · by_cases h2 : (lookupStake σ.stakes info.sender).getD 0 - a = 0 <;>
        simp_all [executeMsg, execute.unstake]

/-- C8 witness: a failing unauthorized reset hands back the input storage. -/
theorem error_leaves_storage_witness :
    executeMsg ⟨some ⟨7, "owner"⟩, [("alice", 3)]⟩ ⟨"mallory", []⟩ (.Reset 5)
        = (.error .Unauthorized, ⟨some ⟨7, "owner"⟩, [("alice", 3)]⟩)
      ∧ (⟨some ⟨7, "owner"⟩, [("alice", 3)]⟩ : Storage)
        = ⟨some ⟨7, "owner"⟩, [("alice", 3)]⟩ :=
  ⟨rfl, error_leaves_storage _ _ ⟨"mallory", []⟩ (.Reset 5) .Unauthorized rfl⟩

/-- C3: starting from a well-formed stake mapping (distinct keys, all
balances positive), any successful execute call leaves every present entry
strictly positive; and a successful unstake of exactly the caller's current
balance leaves the caller's entry absent, with a queried balance of 0. -/
theorem stake_entries_positive (σ σ1 : Storage) (info : MessageInfo)
    (msg : ExecuteMsg) (r : Response)
    (hpos : ∀ p ∈ σ.stakes, 0 < p.2) (hnd : NodupKeys σ.stakes)
    (h : executeMsg σ info msg = (.ok r, σ1)) :
    (∀ p ∈ σ1.stakes, 0 < p.2)
      ∧ ∀ a, msg = .Unstake a → a = getStake σ info.sender →
          info.sender ∉ σ1.stakes.map Prod.fst
            ∧ getStake σ1 info.sender = 0 := by
  cases msg with
  | Increment =>
    cases hs : σ.state with
    | none => simp [executeMsg, execute.increment, hs] at h
    | some st =>
      simp only [executeMsg, execute.increment, hs, Prod.mk.injEq,
        Except.ok.injEq] at h
      refine ⟨?_, ?_⟩
      · rw [← h.2]
        exact hpos
      · intro a ha
        simp at ha
  | Reset c =>
    cases hs : σ.state with
    | none => simp [executeMsg, execute.reset, hs] at h
    | some st =>
      by_cases hw : info.sender = st.owner
      · simp only [executeMsg, execute.reset, hs, hw, ne_eq, not_true_eq_false,
          if_false, Prod.mk.injEq, Except.ok.injEq] at h
        refine ⟨?_, ?_⟩
        · rw [← h.2]
          exact hpos
        · intro a ha
          simp at ha
      · simp [executeMsg, execute.reset, hs, hw] at h
  | Stake a =>
    cases hf : info.funds with
    | nil => simp [executeMsg, execute.stake, hf] at h
    | cons c rest =>
      by_cases h1 : c.amount < a
      · simp [executeMsg, execute.stake, hf, h1] at h
      · by_cases h2 : a = 0
        · simp [executeMsg, execute.stake, hf, h1, h2] at h
        · simp only [executeMsg, execute.stake, hf, if_neg h1, if_neg h2,
            Prod.mk.injEq, Except.ok.injEq] at h
          refine ⟨?_, ?_⟩
          · intro p hp
            rw [← h.2] at hp
            simp only at hp
            rcases mem_saveStake _ _ _ _ hp with h3 | h3
            · rw [h3]
              omega
            · exact hpos p h3
          · intro a0 ha
            simp at ha
  | Unstake a =>
    by_cases h1 : (lookupStake σ.stakes info.sender).getD 0 < a
    · simp [executeMsg, execute.unstake, h1] at h
    · by_cases h2 : (lookupStake σ.stakes info.sender).getD 0 - a = 0
      · simp only [executeMsg, execute.unstake, if_neg h1, if_pos h2,
          Prod.mk.injEq, Except.ok.injEq] at h
        refine ⟨?_, ?_⟩
        · intro p hp
          rw [← h.2] at hp
          simp only at hp
          exact hpos p (mem_removeStake _ _ _ hp)
        · intro a0 ha hgs
          rw [← h.2]
          simp only
          refine ⟨not_mem_removeStake _ _ hnd, ?_⟩
          simp only [getStake]
          rw [lookupStake_eq_none_of_not_mem _ _
            (not_mem_removeStake _ _ hnd)]
          rfl
      · simp only [executeMsg, execute.unstake, if_neg h1, if_neg h2,
          Prod.mk.injEq, Except.ok.injEq] at h
        refine ⟨?_, ?_⟩
        · intro p hp
          rw [← h.2] at hp
          simp only at hp
          rcases mem_saveStake _ _ _ _ hp with h3 | h3
          · rw [h3]
            simp only
            omega
          · exact hpos p h3
        · intro a0 ha hgs
          exfalso
          simp only [ExecuteMsg.Unstake.injEq] at ha
          simp only [getStake] at hgs
          omega

/-- C3 witness: unstaking a full balance of 5 prunes the entry and the
queried balance is 0. -/
theorem stake_entries_positive_witness :
    ¬("alice" ∈ (([] : List (String × Nat)).map Prod.fst))
      ∧ getStake ⟨some ⟨0, "o"⟩, []⟩ "alice" = 0 :=
  (stake_entries_positive ⟨some ⟨0, "o"⟩, [("alice", 5)]⟩ ⟨some ⟨0, "o"⟩, []⟩
      ⟨"alice", []⟩ (.Unstake 5)
      ⟨[("action", "unstake"), ("staker", "alice"), ("amount", "5")],
        [⟨"alice", [⟨"token", 5⟩]⟩]⟩
      (by decide) (by unfold NodupKeys; decide) rfl).2 5 rfl (by decide)

/-- C5 counterexample: with empty attached funds and declared amount 0 (not
strictly positive), stake fails with the insufficient-funds error, not the
invalid-amount error the claim assigns to every non-positive amount. -/
theorem stake_zero_empty_funds_error :
    (executeMsg ⟨some ⟨0, "o"⟩, []⟩ ⟨"s", []⟩ (.Stake 0)).1
        = .error (.Std "Insufficient funds sent for staking")
      ∧ (executeMsg ⟨some ⟨0, "o"⟩, []⟩ ⟨"s", []⟩ (.Stake 0)).1
        ≠ .error (.Std "Stake amount must be greater than zero") :=
  ⟨rfl, by
    have h : (executeMsg ⟨some ⟨0, "o"⟩, []⟩ ⟨"s", []⟩ (.Stake 0)).1
        = .error (.Std "Insufficient funds sent for staking") := rfl
    rw [h]
    simp⟩

/-- C5 (amended): stake fails with the insufficient-funds error whenever the
attached funds are empty or their first coin is short of the declared amount;
when that check passes (it is evaluated first) and the declared amount is
zero, it fails with the invalid-amount error; both failures return the
storage unchanged. -/
theorem stake_precondition_errors (σ : Storage) (info : MessageInfo)
    (a : Nat) :
    (fundsInsufficient info a = true →
        executeMsg σ info (.Stake a)
          = (.error (.Std "Insufficient funds sent for staking"), σ))
      ∧ (fundsInsufficient info a = false → a = 0 →
        executeMsg σ info (.Stake a)
          = (.error (.Std "Stake amount must be greater than zero"), σ)) := by
  cases hf : info.funds with
  | nil =>
    refine ⟨fun _ => ?_, fun hfalse => ?_⟩
    · simp [executeMsg, execute.stake, hf]
    · rw [fundsInsufficient, hf] at hfalse
      simp at hfalse
  | cons c rest =>
    refine ⟨fun hins => ?_, fun hok h0 => ?_⟩
    · rw [fundsInsufficient, hf] at hins
      simp only [decide_eq_true_eq] at hins
      simp [executeMsg, execute.stake, hf, hins]
    · rw [fundsInsufficient, hf] at hok
      simp only [decide_eq_false_iff_not] at hok
      simp [executeMsg, execute.stake, hf, hok, h0]

/-- C5 witness: empty funds trigger the funds error; adequate funds with a
zero amount trigger the amount error. -/
theorem stake_precondition_errors_witness :
    (fundsInsufficient ⟨"s", []⟩ 3 = true
        ∧ executeMsg ⟨some ⟨0, "o"⟩, []⟩ ⟨"s", []⟩ (.Stake 3)
          = (.error (.Std "Insufficient funds sent for staking"),
             ⟨some ⟨0, "o"⟩, []⟩))
      ∧ (fundsInsufficient ⟨"s", [⟨"token", 5⟩]⟩ 0 = false
        ∧ executeMsg ⟨some ⟨0, "o"⟩, []⟩ ⟨"s", [⟨"token", 5⟩]⟩ (.Stake 0)
          = (.error (.Std "Stake amount must be greater than zero"),
             ⟨some ⟨0, "o"⟩, []⟩)) :=
  ⟨⟨by decide,
    (stake_precondition_errors ⟨some ⟨0, "o"⟩, []⟩ ⟨"s", []⟩ 3).1 (by decide)⟩,
   ⟨by decide,
    (stake_precondition_errors ⟨some ⟨0, "o"⟩, []⟩ ⟨"s", [⟨"token", 5⟩]⟩ 0).2
      (by decide) rfl⟩⟩

/-- C6: when the declared amount is at most the caller's current balance `b`,
unstake succeeds, the caller's balance becomes `b - a` (entry pruned exactly
when `b - a = 0`, kept at `b - a` otherwise), and the response carries
exactly one bank-send of `a` units of denom "token" to the caller together
with the "unstake" action attribute. -/
theorem unstake_success_effects (σ : Storage) (info : MessageInfo) (a : Nat)
    (hnd : NodupKeys σ.stakes) (h : a ≤ getStake σ info.sender) :
    ∃ r σ1, executeMsg σ info (.Unstake a) = (.ok r, σ1)
      ∧ getStake σ1 info.sender = getStake σ info.sender - a
      ∧ (getStake σ info.sender - a = 0 →
          info.sender ∉ σ1.stakes.map Prod.fst)
      ∧ (getStake σ info.sender - a ≠ 0 →
          lookupStake σ1.stakes info.sender
            = some (getStake σ info.sender - a))
      ∧ r.messages
          = [⟨info.sender, [⟨"token", a⟩]⟩]
      ∧ ("action", "unstake") ∈ r.attributes := by
  have hcur : ¬ ((lookupStake σ.stakes info.sender).getD 0 < a) := by
    simpa [getStake] using Nat.not_lt.mpr h
  by_cases h0 : (lookupStake σ.stakes info.sender).getD 0 - a = 0
  · refine ⟨(((Response.new.addAttribute "action" "unstake").addAttribute
        "staker" info.sender).addAttribute
        "amount" (toString a)).addMessage ⟨info.sender, [⟨"token", a⟩]⟩,
      Storage.mk σ.state (removeStake σ.stakes info.sender),
      ?_, ?_, ?_, ?_, ?_, ?_⟩
    · simp only [executeMsg, execute.unstake, if_neg hcur, if_pos h0]
    · simp only [getStake]
      rw [lookupStake_eq_none_of_not_mem _ _ (not_mem_removeStake _ _ hnd)]
      simp only [Option.getD_none]
      omega
    · intro _
      exact not_mem_removeStake _ _ hnd
    · intro hne
      exact absurd h0 (by simpa [getStake] using hne)
    · simp [Response.new, Response.addAttribute, Response.addMessage]
    · simp [Response.new, Response.addAttribute, Response.addMessage]
  · refine ⟨(((Response.new.addAttribute "action" "unstake").addAttribute
        "staker" info.sender).addAttribute
        "amount" (toString a)).addMessage ⟨info.sender, [⟨"token", a⟩]⟩,
      Storage.mk σ.state (saveStake σ.stakes info.sender
        ((lookupStake σ.stakes info.sender).getD 0 - a)),
      ?_, ?_, ?_, ?_, ?_, ?_⟩
    · simp only [executeMsg, execute.unstake, if_neg hcur, if_neg h0]
    · simp only [getStake]
      rw [lookupStake_save_self]
      rfl
    · intro hz
      exact absurd (by simpa [getStake] using hz) h0
    · intro _
      simp only [getStake]
      exact lookupStake_save_self _ _ _
    · simp [Response.new, Response.addAttribute, Response.addMessage]
    · simp [Response.new, Response.addAttribute, Response.addMessage]

/-- C6 witness: unstaking 3 of a balance of 5 leaves 2 and sends 3 "token"
back to the caller. -/
theorem unstake_success_effects_witness :
    ∃ r σ1, executeMsg ⟨some ⟨0, "o"⟩, [("alice", 5)]⟩ ⟨"alice", []⟩
          (.Unstake 3) = (.ok r, σ1)
      ∧ getStake σ1 "alice"
          = getStake ⟨some ⟨0, "o"⟩, [("alice", 5)]⟩ "alice" - 3
      ∧ (getStake ⟨some ⟨0, "o"⟩, [("alice", 5)]⟩ "alice" - 3 = 0 →
          "alice" ∉ σ1.stakes.map Prod.fst)
      ∧ (getStake ⟨some ⟨0, "o"⟩, [("alice", 5)]⟩ "alice" - 3 ≠ 0 →
          lookupStake σ1.stakes "alice"
            = some (getStake ⟨some ⟨0, "o"⟩, [("alice", 5)]⟩ "alice" - 3))
      ∧ r.messages = [⟨"alice", [⟨"token", 3⟩]⟩]
      ∧ ("action", "unstake") ∈ r.attributes :=
  unstake_success_effects ⟨some ⟨0, "o"⟩, [("alice", 5)]⟩ ⟨"alice", []⟩ 3
    (by unfold NodupKeys; decide) (by decide)

/-- C9: stake inspects only the first attached coin's amount — never any
denomination, never later coins: every call with non-empty funds whose first
coin covers the positive declared amount succeeds and credits the declared
amount, even though every successful unstake pays out in denom "token". -/
theorem stake_ignores_denomination (σ : Storage) (info : MessageInfo)
    (a : Nat) (c : Coin) (rest : List Coin) (hf : info.funds = c :: rest)
    (h0 : 0 < a) (hc : a ≤ c.amount) :
    (∃ r, executeMsg σ info (.Stake a)
        = (.ok r, Storage.mk σ.state (saveStake σ.stakes info.sender
            (getStake σ info.sender + a))))
      ∧ ∀ (σ2 : Storage) (info2 : MessageInfo) (b : Nat) (r2 : Response)
          (σ3 : Storage), executeMsg σ2 info2 (.Unstake b) = (.ok r2, σ3) →
          ∀ m ∈ r2.messages, ∀ co ∈ m.amount, co.denom = "token" := by
  have h1 : ¬ (c.amount < a) := Nat.not_lt.mpr hc
  have h2 : ¬ (a = 0) := by omega
  refine ⟨⟨((Response.new.addAttribute "action" "stake").addAttribute
      "staker" info.sender).addAttribute "amount" (toString a), ?_⟩, ?_⟩
  · simp only [executeMsg, execute.stake, hf]
    rw [if_neg h1, if_neg h2]
    rfl
  · intro σ2 info2 b r2 σ3 hex m hm co hco
    by_cases hb : (lookupStake σ2.stakes info2.sender).getD 0 < b
    · simp [executeMsg, execute.unstake, hb] at hex
    · by_cases hz : (lookupStake σ2.stakes info2.sender).getD 0 - b = 0
      · simp only [executeMsg, execute.unstake, if_neg hb, if_pos hz,
          Prod.mk.injEq, Except.ok.injEq] at hex
        rw [← hex.1] at hm
        simp only [Response.new, Response.addAttribute,
          Response.addMessage, List.nil_append, List.mem_singleton] at hm
        rw [hm] at hco
        simp only [List.mem_singleton] at hco
        rw [hco]
      · simp only [executeMsg, execute.unstake, if_neg hb, if_neg hz,
          Prod.mk.injEq, Except.ok.injEq] at hex
        rw [← hex.1] at hm
        simp only [Response.new, Response.addAttribute,
          Response.addMessage, List.nil_append, List.mem_singleton] at hm
        rw [hm] at hco
        simp only [List.mem_singleton] at hco
        rw [hco]

/-- C9 witness: staking 5 with first coin 7 "doge" (plus a stray second
coin) succeeds; successful unstakes only ever send "token". -/
theorem stake_ignores_denomination_witness :
    (∃ r, executeMsg ⟨some ⟨0, "o"⟩, []⟩ ⟨"alice", [⟨"doge", 7⟩, ⟨"x", 1⟩]⟩
          (.Stake 5)
        = (.ok r, Storage.mk (some ⟨0, "o"⟩) (saveStake [] "alice"
            (getStake ⟨some ⟨0, "o"⟩, []⟩ "alice" + 5))))
      ∧ ∀ (σ2 : Storage) (info2 : MessageInfo) (b : Nat) (r2 : Response)
          (σ3 : Storage), executeMsg σ2 info2 (.Unstake b) = (.ok r2, σ3) →
          ∀ m ∈ r2.messages, ∀ co ∈ m.amount, co.denom = "token" :=
  stake_ignores_denomination ⟨some ⟨0, "o"⟩, []⟩
    ⟨"alice", [⟨"doge", 7⟩, ⟨"x", 1⟩]⟩ 5 ⟨"doge", 7⟩ [⟨"x", 1⟩] rfl
    (by decide) (by decide)

/-- C10: unstaking 0 succeeds for every caller of a well-formed ledger, even
one with no stake entry; the storage is returned exactly unchanged while the
response still carries the "unstake" attribute and a bank-send of 0 "token"
to the caller. -/
theorem unstake_zero_succeeds (σ : Storage) (info : MessageInfo)
    (hpos : ∀ p ∈ σ.stakes, 0 < p.2) :
    ∃ r, executeMsg σ info (.Unstake 0) = (.ok r, σ)
      ∧ r.messages = [⟨info.sender, [⟨"token", 0⟩]⟩]
      ∧ ("action", "unstake") ∈ r.attributes := by
  have hcur : ¬ ((lookupStake σ.stakes info.sender).getD 0 < 0) :=
    Nat.not_lt_zero _
  refine ⟨(((Response.new.addAttribute "action" "unstake").addAttribute
      "staker" info.sender).addAttribute
      "amount" (toString 0)).addMessage ⟨info.sender, [⟨"token", 0⟩]⟩,
    ?_, ?_, ?_⟩
  · by_cases hz : (lookupStake σ.stakes info.sender).getD 0 = 0
    · have hnone : lookupStake σ.stakes info.sender = none := by
        cases hl : lookupStake σ.stakes info.sender with
        | none => rfl
        | some v =>
          have hv := hpos _ (lookupStake_mem _ _ _ hl)
          rw [hl] at hz
          simp only [Option.getD_some] at hz
          omega
      simp only [executeMsg, execute.unstake, if_neg hcur, Nat.sub_zero]
      rw [if_pos hz, removeStake_of_lookup_none _ _ hnone]
    · have hsome : lookupStake σ.stakes info.sender
          = some ((lookupStake σ.stakes info.sender).getD 0) := by
        cases hl : lookupStake σ.stakes info.sender with
        | none =>
          rw [hl] at hz
          simp at hz
        | some v => rfl
      simp only [executeMsg, execute.unstake, if_neg hcur, Nat.sub_zero]
      rw [if_neg hz, saveStake_self _ _ _ hsome]
  · simp [Response.new, Response.addAttribute, Response.addMessage]
  · simp [Response.new, Response.addAttribute, Response.addMessage]

/-- C10 witness: a caller with no entry unstakes 0; the ledger (holding
another account's stake) is untouched and 0 "token" is sent back. -/
theorem unstake_zero_succeeds_witness :
    ∃ r, executeMsg ⟨some ⟨0, "o"⟩, [("alice", 5)]⟩ ⟨"bob", []⟩ (.Unstake 0)
        = (.ok r, ⟨some ⟨0, "o"⟩, [("alice", 5)]⟩)
      ∧ r.messages = [⟨"bob", [⟨"token", 0⟩]⟩]
      ∧ ("action", "unstake") ∈ r.attributes :=
  unstake_zero_succeeds ⟨some ⟨0, "o"⟩, [("alice", 5)]⟩ ⟨"bob", []⟩
    (by decide)
